import Mathlib

set_option linter.unusedVariables false

/-! Shallow embedding of the jsonrpc-demo server: the JSON value model with its
byte-level recursive-descent parser and serializer (src/json.rs), and the
JSON-RPC 2.0 envelope validation, dispatch and batch logic (src/main.rs).
Strings are modelled as lists of byte values. The double-precision number
payload is kept abstract: a `FModel` bundles the number type together with the
operations the source applies to it (Display formatting, FromStr parsing,
addition, subtraction, the integer embedding used for error codes). -/

/-- Byte values of an ASCII string literal. -/
def strB (s : String) : List Nat := s.data.map Char.toNat

/-- Uppercase hexadecimal digit byte, as produced by the 04X format used in
`escape` for control bytes. -/
def hexDigitUpper (n : Nat) : Nat := if n < 10 then 48 + n else 55 + n

/-- One byte of the string-escaping loop body of `escape` in json.rs: quote and
backslash get a backslash prefix, the five short escapes are used for 0x08,
0x0C, 0x0A, 0x0D, 0x09, remaining control bytes 0x00-0x1F render as a
four-digit uppercase hex escape, and every other byte passes through. -/
def escapeByte (c : Nat) : List Nat :=
  if c = 34 ∨ c = 92 then [92, c]
  else if c = 8 then [92, 98]
  else if c = 12 then [92, 102]
  else if c = 10 then [92, 110]
  else if c = 13 then [92, 114]
  else if c = 9 then [92, 116]
  else if c ≤ 31 then [92, 117, 48, 48, hexDigitUpper (c / 16), hexDigitUpper (c % 16)]
  else [c]

/-- `escape` from json.rs: a double quote, the escaped bytes, a double quote. -/
def escape (s : List Nat) : List Nat := 34 :: s.flatMap escapeByte ++ [34]

/-- The `Json` enum of json.rs. `F` abstracts the f64 payload of `Number`;
strings are byte lists. -/
inductive Json (F : Type) where
  | Null : Json F
  | Bool (b : Bool) : Json F
  | Number (n : F) : Json F
  | String (s : List Nat) : Json F
  | Array (xs : List (Json F)) : Json F
  | Object (kvs : List (List Nat × Json F)) : Json F

/-- Abstract model of the f64 number type with the operations the source uses:
Display formatting (`n.to_string()`), FromStr parsing (`s.parse::<f64>()`),
`+=`, binary subtraction, the literal 0.0 and the `as f64` integer cast. -/
structure FModel where
  F : Type
  fmt : F → List Nat
  parseNum : List Nat → Option F
  add : F → F → F
  sub : F → F → F
  zero : F
  ofInt : Int → F

/-- `Vec::join` on byte strings with the given separator. -/
def joinSep (sep : List Nat) : List (List Nat) → List Nat
  | [] => []
  | [x] => x
  | x :: xs => x ++ sep ++ joinSep sep xs

/-- `Json::stringify` from json.rs. Note that object keys are interpolated
verbatim between quotes, without going through `escape`. -/
def stringify {F : Type} (fmt : F → List Nat) : Json F → List Nat
  | .Null => strB "null"
  | .Bool b => if b then strB "true" else strB "false"
  | .Number n => fmt n
  | .String s => escape s
  | .Array xs => 91 :: joinSep [44] (xs.attach.map fun x => stringify fmt x.1) ++ [93]
  | .Object kvs => 123 :: joinSep [44]
      (kvs.attach.map fun kv => 34 :: kv.1.1 ++ [34, 58] ++ stringify fmt kv.1.2) ++ [125]
termination_by j => sizeOf j
decreasing_by
  · have := List.sizeOf_lt_of_mem x.2
    simp only [Json.Array.sizeOf_spec]
    omega
  · have h1 := List.sizeOf_lt_of_mem kv.2
    have h2 : sizeOf kv.1.2 < sizeOf kv.1 := by
      obtain ⟨⟨a, b⟩, hk⟩ := kv
      simp
    simp only [Json.Object.sizeOf_spec]
    omega

/-- `ParseError` from json.rs, with the cursor position dropped and the reason
kept as plain text; no claim inspects either field. -/
structure ParseError where
  reason : String
deriving DecidableEq

/-- `u8::is_ascii_whitespace`: space, tab, newline, form feed, carriage
return. -/
def isAsciiWs (c : Nat) : Bool := c == 9 || c == 10 || c == 12 || c == 13 || c == 32

/-- `Parser::skip_whitespace` applied to the remaining input. -/
def skip_whitespace (s : List Nat) : List Nat := s.dropWhile isAsciiWs

/-- `str::starts_with` on byte strings, first argument the needle. -/
def startsWithBytes : List Nat → List Nat → Bool
  | [], _ => true
  | _ :: _, [] => false
  | l :: ls, c :: cs => l == c && startsWithBytes ls cs

/-- `Parser::parse_identifier`: match the literal and advance past it. -/
def parse_identifier {F : Type} (lit : List Nat) (val : Json F) (s : List Nat) :
    Except ParseError (Json F × List Nat) :=
  if startsWithBytes lit s then .ok (val, s.drop lit.length)
  else .error ⟨"unexpected"⟩

/-- The character class greedily consumed by `Parser::parse_number`. -/
def isNumChar (c : Nat) : Bool :=
  (48 ≤ c && c ≤ 57) || c == 46 || c == 45 || c == 43 || c == 101 || c == 69

/-- `Parser::parse_number`: greedily take the number character class, then
delegate to the abstract f64 FromStr parser. -/
def parse_number (M : FModel) (s : List Nat) : Except ParseError (Json M.F × List Nat) :=
  match M.parseNum (s.takeWhile isNumChar) with
  | some n => .ok (.Number n, s.dropWhile isNumChar)
  | none => .error ⟨"invalid number"⟩

/-- Value of one hexadecimal digit byte. -/
def hexVal (c : Nat) : Option Nat :=
  if 48 ≤ c ∧ c ≤ 57 then some (c - 48)
  else if 97 ≤ c ∧ c ≤ 102 then some (c - 87)
  else if 65 ≤ c ∧ c ≤ 70 then some (c - 55)
  else none

/-- `u16::from_str_radix(hex, 16)` on exactly four bytes. Rust accepts a
leading plus sign, and a leading minus sign when the digits denote zero. -/
def parseHex4 (a b c d : Nat) : Option Nat :=
  if a = 43 then do
    let x ← hexVal b
    let y ← hexVal c
    let z ← hexVal d
    some (x * 256 + y * 16 + z)
  else if a = 45 then do
    let x ← hexVal b
    let y ← hexVal c
    let z ← hexVal d
    if x * 256 + y * 16 + z = 0 then some 0 else none
  else do
    let w ← hexVal a
    let x ← hexVal b
    let y ← hexVal c
    let z ← hexVal d
    some (w * 4096 + x * 256 + y * 16 + z)

/-- `char::encode_utf8` of a Unicode scalar value given as a Nat. -/
def utf8Enc (n : Nat) : List Nat :=
  if n < 128 then [n]
  else if n < 2048 then [192 + n / 64, 128 + n % 64]
  else if n < 65536 then [224 + n / 4096, 128 + n / 64 % 64, 128 + n % 64]
  else [240 + n / 262144, 128 + n / 4096 % 64, 128 + n / 64 % 64, 128 + n % 64]

/-- `push_utf16` on a single code unit: the source only calls this with a
non-surrogate unit, for which UTF-16 decoding always succeeds. -/
def push_utf16_one (n : Nat) : Option (List Nat) :=
  if n < 55296 ∨ 57343 < n then some (utf8Enc n) else none

/-- `push_utf16` on a two-unit sequence whose first unit is a surrogate:
decoding succeeds exactly for a high surrogate followed by a low surrogate. -/
def push_utf16_pair (n n1 : Nat) : Option (List Nat) :=
  if 55296 ≤ n ∧ n ≤ 56319 ∧ 56320 ≤ n1 ∧ n1 ≤ 57343 then
    some (utf8Enc (65536 + (n - 55296) * 1024 + (n1 - 56320)))
  else none

/-- `deescape` from json.rs; the final branch is unreachable in the source
because every caller guards on the eight escape characters. -/
def deescape (c : Nat) : Nat :=
  if c = 34 then 34
  else if c = 92 then 92
  else if c = 47 then 47
  else if c = 98 then 8
  else if c = 102 then 12
  else if c = 110 then 10
  else if c = 114 then 13
  else if c = 116 then 9
  else c

/-- The eight single-character escapes recognized after a backslash. -/
def isSimpleEscape (c : Nat) : Bool :=
  c == 34 || c == 92 || c == 47 || c == 98 || c == 102 || c == 110 || c == 114 || c == 116

/-- The `\u` arm of the string loop, input starting right after the `u`:
read four hex bytes; a non-surrogate unit is UTF-8 encoded directly, a
surrogate requires a following `\uXXXX` completing a surrogate pair. On
success, the pushed bytes and the remaining input are returned. -/
def parse_escape_u (rest2 : List Nat) : Except ParseError (List Nat × List Nat) :=
  match rest2 with
  | h1 :: h2 :: h3 :: h4 :: rest3 =>
    match parseHex4 h1 h2 h3 h4 with
    | none => .error ⟨"unexpected"⟩
    | some n =>
      if n < 55296 ∨ 57343 < n then
        match push_utf16_one n with
        | some bs => .ok (bs, rest3)
        | none => .error ⟨"decode UTF-16 failed"⟩
      else
        match rest3 with
        | 92 :: 117 :: g1 :: g2 :: g3 :: g4 :: rest4 =>
          match parseHex4 g1 g2 g3 g4 with
          | none => .error ⟨"unexpected"⟩
          | some n1 =>
            match push_utf16_pair n n1 with
            | some bs => .ok (bs, rest4)
            | none => .error ⟨"decode UTF-16 failed"⟩
        | _ => .error ⟨"unexpected"⟩
  | _ => .error ⟨"unexpected"⟩

/-- The loop of `Parser::parse_string`, cursor already past the opening
quote. Reaching the end of input returns the accumulated bytes as a success.
For a single-character escape the source pushes the deescaped byte but does
not advance past the escape character, so the next iteration reads that same
character again; the embedding reproduces this faithfully. The fuel is a
termination device only: every iteration consumes at least one input byte,
so the initial fuel of input length plus one never runs out. -/
def parse_string_loop : Nat → List Nat → List Nat → Except ParseError (List Nat × List Nat)
  | 0, _, _ => .error ⟨"out of fuel"⟩
  | fuel + 1, acc, s =>
    match s with
    | [] => .ok (acc, [])
    | c :: rest =>
      if c = 34 then .ok (acc, rest)
      else if c = 92 then
        match rest with
        | [] => .ok (acc, [])
        | c2 :: rest2 =>
          if isSimpleEscape c2 then
            parse_string_loop fuel (acc ++ [deescape c2]) (c2 :: rest2)
          else if c2 = 117 then
            match parse_escape_u rest2 with
            | .ok (bs, rest3) => parse_string_loop fuel (acc ++ bs) rest3
            | .error e => .error e
          else .error ⟨"unexpected"⟩
      else parse_string_loop fuel (acc ++ [c]) rest

/-- `Parser::parse_string`: unconditionally advance one byte (the source does
not check that it is a quote), then run the loop. -/
def parse_string (s : List Nat) : Except ParseError (List Nat × List Nat) :=
  parse_string_loop (s.length + 1) [] (s.drop 1)

mutual

/-- `Parser::parse_value`. The fuel argument is a termination device for the
mutual recursion; the top-level entry point supplies fuel that is proven
sufficient for every successful parse. -/
def parse_value (M : FModel) : Nat → List Nat → Except ParseError (Json M.F × List Nat)
  | 0, _ => .error ⟨"out of fuel"⟩
  | fuel + 1, s =>
    match s with
    | [] => .error ⟨"unexpected EOF"⟩
    | c :: _ =>
      if c = 110 then parse_identifier (strB "null") .Null s
      else if c = 116 then parse_identifier (strB "true") (.Bool true) s
      else if c = 102 then parse_identifier (strB "false") (.Bool false) s
      else if (48 ≤ c ∧ c ≤ 57) ∨ c = 45 then parse_number M s
      else if c = 34 then
        match parse_string s with
        | .ok (t, rest) => .ok (.String t, rest)
        | .error e => .error e
      else if c = 91 then parse_array_loop M fuel true [] (s.drop 1)
      else if c = 123 then parse_object_loop M fuel true [] (s.drop 1)
      else .error ⟨"unexpected"⟩

/-- The loop of `Parser::parse_array`, cursor already past the opening
bracket. `first` tracks whether a comma separator is required. When only
whitespace remains the source reaches end of input inside the iteration and
fails; that failure is returned directly here. -/
def parse_array_loop (M : FModel) : Nat → Bool → List (Json M.F) → List Nat →
    Except ParseError (Json M.F × List Nat)
  | 0, _, _, _ => .error ⟨"out of fuel"⟩
  | fuel + 1, first, acc, s =>
    match s with
    | [] => .error ⟨"unexpected EOF"⟩
    | _ :: _ =>
      match skip_whitespace s with
      | [] => .error ⟨"unexpected"⟩
      | c :: r =>
        if c = 93 then .ok (.Array acc, r)
        else if first then
          match parse_value M fuel (c :: r) with
          | .ok (v, rest) => parse_array_loop M fuel false (acc ++ [v]) rest
          | .error e => .error e
        else if c = 44 then
          match parse_value M fuel (skip_whitespace r) with
          | .ok (v, rest) => parse_array_loop M fuel false (acc ++ [v]) rest
          | .error e => .error e
        else .error ⟨"unexpected"⟩

/-- The loop of `Parser::parse_object`, cursor already past the opening
brace. The key is read by `parse_string` without checking for an opening
quote first, as in the source. When only whitespace remains the source
reaches end of input inside the iteration and fails; that failure is
returned directly here. -/
def parse_object_loop (M : FModel) : Nat → Bool → List (List Nat × Json M.F) → List Nat →
    Except ParseError (Json M.F × List Nat)
  | 0, _, _, _ => .error ⟨"out of fuel"⟩
  | fuel + 1, first, acc, s =>
    match s with
    | [] => .error ⟨"unexpected EOF"⟩
    | _ :: _ =>
      match skip_whitespace s with
      | [] => .error ⟨"unexpected"⟩
      | c :: r =>
        if c = 125 then .ok (.Object acc, r)
        else if first then
          match parse_string (c :: r) with
          | .error e => .error e
          | .ok (key, r1) =>
            match skip_whitespace r1 with
            | [] => .error ⟨"unexpected"⟩
            | c3 :: r2 =>
              if c3 = 58 then
                match parse_value M fuel (skip_whitespace r2) with
                | .ok (v, rest) => parse_object_loop M fuel false (acc ++ [(key, v)]) rest
                | .error e => .error e
              else .error ⟨"unexpected"⟩
        else if c = 44 then
          match parse_string (skip_whitespace r) with
          | .error e => .error e
          | .ok (key, r1) =>
            match skip_whitespace r1 with
            | [] => .error ⟨"unexpected"⟩
            | c3 :: r2 =>
              if c3 = 58 then
                match parse_value M fuel (skip_whitespace r2) with
                | .ok (v, rest) => parse_object_loop M fuel false (acc ++ [(key, v)]) rest
                | .error e => .error e
              else .error ⟨"unexpected"⟩
        else .error ⟨"unexpected"⟩

end

/-- `Json::parse_with_trailing_whitespace`: skip leading whitespace, parse one
value, require only whitespace to remain. The fuel bound two times length plus
one never runs out on an input the source parser accepts, because each
recursive entry and each element-loop iteration of a successful parse consumes
at least one input byte. -/
def parse_with_trailing_whitespace (M : FModel) (s : List Nat) : Except ParseError (Json M.F) :=
  match parse_value M (2 * s.length + 1) (skip_whitespace s) with
  | .error e => .error e
  | .ok (j, rest) =>
    if skip_whitespace rest = [] then .ok j
    else .error ⟨"not end with trailing whitespace"⟩

/-- A trivial instantiation of the abstract number payload, used to exhibit
concrete behaviors that do not depend on numeric formatting. -/
def unitModel : FModel where
  F := Unit
  fmt := fun _ => [48]
  parseNum := fun s => if s = [48] then some () else none
  add := fun _ _ => ()
  sub := fun _ _ => ()
  zero := ()
  ofInt := fun _ => ()

/-- Decimal digit bytes of a Nat. -/
def natDigits (n : Nat) : List Nat := (Nat.toDigits 10 n).map Char.toNat

/-- Decimal rendering of an Int as bytes. -/
def intFmt (n : Int) : List Nat :=
  if n < 0 then 45 :: natDigits n.natAbs else natDigits n.toNat

/-- Reading a run of decimal digit bytes. -/
def digitsToNat (acc : Nat) : List Nat → Option Nat
  | [] => some acc
  | c :: cs => if 48 ≤ c ∧ c ≤ 57 then digitsToNat (acc * 10 + (c - 48)) cs else none

/-- Reading an optionally signed run of decimal digit bytes. -/
def intParseNum : List Nat → Option Int
  | [] => none
  | 45 :: cs =>
    match cs with
    | [] => none
    | _ => (digitsToNat 0 cs).map (fun n => -(n : Int))
  | cs => (digitsToNat 0 cs).map (fun n => (n : Int))

/-- An integer instantiation of the abstract number payload, used to exhibit
concrete behaviors where distinct numeric values matter. -/
def intModel : FModel where
  F := Int
  fmt := intFmt
  parseNum := intParseNum
  add := fun a b => a + b
  sub := fun a b => a - b
  zero := 0
  ofInt := fun n => n

/-- `get` from main.rs: the value of the first entry whose key equals the
argument, scanning in stored order. -/
def get {F : Type} : List (List Nat × Json F) → List Nat → Option (Json F)
  | [], _ => none
  | (k, v) :: rest, key => if k = key then some v else get rest key

/-- `response_error` from main.rs, modelled as the bytes written. -/
def response_error (M : FModel) (code : Int) (id : Json M.F) (message : List Nat) : List Nat :=
  stringify M.fmt (.Object [
    (strB "jsonrpc", .String (strB "2.0")),
    (strB "error", .Object [
      (strB "code", .Number (M.ofInt code)),
      (strB "message", .String message)]),
    (strB "id", id)])

/-- `response_invalid_request` from main.rs. -/
def response_invalid_request (M : FModel) : List Nat :=
  response_error M (-32600) .Null (strB "Invalid Request")

/-- `response_invalid_parameters` from main.rs. -/
def response_invalid_parameters (M : FModel) (id : Json M.F) : List Nat :=
  response_error M (-32602) id (strB "Invalid method parameter")

/-- The accumulation loop of `handle_method_add`: add up `Number` elements,
failing on the first element of any other variant. -/
def sum_args (M : FModel) : M.F → List (Json M.F) → Option M.F
  | acc, [] => some acc
  | acc, .Number x :: rest => sum_args M (M.add acc x) rest
  | _, _ => none

/-- `handle_method_add` from main.rs, modelled as the bytes written. -/
def handle_method_add (M : FModel) (kvs : List (List Nat × Json M.F)) (id : Json M.F) :
    List Nat :=
  match get kvs (strB "params") with
  | some (.Array args) =>
    match sum_args M M.zero args with
    | some result => stringify M.fmt (.Object [
        (strB "jsonrpc", .String (strB "2.0")),
        (strB "id", id),
        (strB "result", .Number result)])
    | none => response_invalid_parameters M id
  | _ => response_invalid_parameters M id

/-- `handle_method_subtract` from main.rs, modelled as the bytes written. -/
def handle_method_subtract (M : FModel) (kvs : List (List Nat × Json M.F)) (id : Json M.F) :
    List Nat :=
  match get kvs (strB "params") with
  | some (.Array args) =>
    if args.length ≠ 2 then response_invalid_parameters M id
    else
      match args with
      | [.Number a, .Number b] => stringify M.fmt (.Object [
          (strB "jsonrpc", .String (strB "2.0")),
          (strB "id", id),
          (strB "result", .Number (M.sub a b))])
      | _ => response_invalid_parameters M id
  | _ => response_invalid_parameters M id

/-- `handle_single_json` from main.rs, modelled as the bytes written paired
with the is-notification flag it returns. -/
def handle_single_json (M : FModel) (kvs : List (List Nat × Json M.F)) : List Nat × Bool :=
  match get kvs (strB "jsonrpc") with
  | some (.String ver) =>
    if ver ≠ strB "2.0" then (response_invalid_request M, false)
    else
      match get kvs (strB "id") with
      | none => ([], true)
      | some id =>
        match id with
        | .Number _ | .String _ =>
          (match get kvs (strB "method") with
           | some (.String method) =>
             if method = strB "add" then (handle_method_add M kvs id, false)
             else if method = strB "subtract" then (handle_method_subtract M kvs id, false)
             else (response_error M (-32601) id (strB "Method not found"), false)
           | _ => (response_error M (-32601) id (strB "Method not found"), false))
        | .Null => ([], true)
        | _ => (response_invalid_request M, false)
  | _ => (response_invalid_request M, false)

/-- Per-element processing inside a batch: objects go through the
single-request path, anything else is an Invalid Request for that element. -/
def handle_element (M : FModel) (j : Json M.F) : List Nat × Bool :=
  match j with
  | .Object kvs => handle_single_json M kvs
  | _ => (response_invalid_request M, false)

/-- The batch loop inside `handle_json`: `res` accumulates the bracketed,
comma-separated responses of the non-notification elements so far, and
`is_first` records that no response has been emitted yet. -/
def batch_loop (M : FModel) : List (Json M.F) → Bool → List Nat → List Nat × Bool
  | [], is_first, res => if is_first then ([], true) else (res ++ [93], false)
  | j :: js, is_first, res =>
    let r := handle_element M j
    if r.2 then batch_loop M js is_first res
    else batch_loop M js false (res ++ (if is_first then [91] else [44]) ++ r.1)

/-- `handle_json` from main.rs, modelled as the bytes written paired with the
is-notification flag it returns. -/
def handle_json (M : FModel) (j : Json M.F) : List Nat × Bool :=
  match j with
  | .Object kvs => handle_single_json M kvs
  | .Array js =>
    if js.isEmpty then (response_invalid_request M, false)
    else batch_loop M js true []
  | _ => (response_invalid_request M, false)

/-- `char::is_whitespace`: the Unicode White_Space property, as used by
`str::trim` in `handle_client`. -/
def isRustWs (c : Char) : Bool :=
  ([9, 10, 11, 12, 13, 32, 133, 160, 5760, 8192, 8193, 8194, 8195, 8196, 8197,
    8198, 8199, 8200, 8201, 8202, 8232, 8233, 8239, 8287, 12288] : List Nat).contains c.toNat

/-- `str::trim_start` on a character list. -/
def trimStart (l : List Char) : List Char := l.dropWhile isRustWs

/-- `str::trim_end` on a character list. -/
def trimEnd (l : List Char) : List Char := (l.reverse.dropWhile isRustWs).reverse

/-- `str::trim` on a character list. -/
def trim (l : List Char) : List Char := trimEnd (trimStart l)

/-- UTF-8 bytes of a character list, the byte view the parser receives. -/
def utf8OfChars (l : List Char) : List Nat := l.flatMap (fun c => utf8Enc c.toNat)

/-- One iteration of the per-line loop of `handle_client`, modelled as the
bytes written for that line: trim the line, skip it when empty, otherwise
parse and dispatch, appending the newline that is written unless the request
was a notification. -/
def handle_line (M : FModel) (line : List Char) : List Nat :=
  let t := trim line
  if t = [] then []
  else
    match parse_with_trailing_whitespace M (utf8OfChars t) with
    | .error _ => response_error M (-32700) .Null (strB "Parse error") ++ [10]
    | .ok j =>
      let r := handle_json M j
      r.1 ++ (if r.2 then [] else [10])

/-- Bytes untouched by `escape`: not a quote, not a backslash, not a control
byte. -/
def clean_bytes (s : List Nat) : Bool := s.all fun c => decide (c ≠ 34 ∧ c ≠ 92 ∧ 31 < c)

/-- Json values all of whose strings and object keys consist of bytes
untouched by `escape`. -/
def clean {F : Type} : Json F → Bool
  | .Null => true
  | .Bool _ => true
  | .Number _ => true
  | .String s => clean_bytes s
  | .Array xs => xs.attach.all fun x => clean x.1
  | .Object kvs => kvs.attach.all fun kv => clean_bytes kv.1.1 && clean kv.1.2
termination_by j => sizeOf j
decreasing_by
  · have := List.sizeOf_lt_of_mem x.2
    simp only [Json.Array.sizeOf_spec]
    omega
  · have h1 := List.sizeOf_lt_of_mem kv.2
    have h2 : sizeOf kv.1.2 < sizeOf kv.1 := by
      obtain ⟨⟨a, b⟩, hk⟩ := kv
      simp
    simp only [Json.Object.sizeOf_spec]
    omega

/-- Json values all of whose strings and object keys are free of control
bytes 0x00-0x1F, the hypothesis the round-trip claim carries. -/
def ctrl_free {F : Type} : Json F → Bool
  | .Null => true
  | .Bool _ => true
  | .Number _ => true
  | .String s => s.all fun c => decide (31 < c)
  | .Array xs => xs.attach.all fun x => ctrl_free x.1
  | .Object kvs => kvs.attach.all fun kv => (kv.1.1.all fun c => decide (31 < c)) && ctrl_free kv.1.2
termination_by j => sizeOf j
decreasing_by
  · have := List.sizeOf_lt_of_mem x.2
    simp only [Json.Array.sizeOf_spec]
    omega
  · have h1 := List.sizeOf_lt_of_mem kv.2
    have h2 : sizeOf kv.1.2 < sizeOf kv.1 := by
      obtain ⟨⟨a, b⟩, hk⟩ := kv
      simp
    simp only [Json.Object.sizeOf_spec]
    omega

/-- Fuel needed by the parser on the canonical serialization: one unit per
`parse_value` entry and per element-loop iteration. -/
def fuelOf {F : Type} : Json F → Nat
  | .Null => 1
  | .Bool _ => 1
  | .Number _ => 1
  | .String _ => 1
  | .Array xs => 2 + (xs.attach.map fun x => 1 + fuelOf x.1).sum
  | .Object kvs => 2 + (kvs.attach.map fun kv => 1 + fuelOf kv.1.2).sum
termination_by j => sizeOf j
decreasing_by
  · have := List.sizeOf_lt_of_mem x.2
    simp only [Json.Array.sizeOf_spec]
    omega
  · have h1 := List.sizeOf_lt_of_mem kv.2
    have h2 : sizeOf kv.1.2 < sizeOf kv.1 := by
      obtain ⟨⟨a, b⟩, hk⟩ := kv
      simp
    simp only [Json.Object.sizeOf_spec]
    omega

/-- The properties of the abstract number payload under which serialized
numbers parse back: formatting round-trips through the FromStr parser, the
rendered token stays inside the number character class, and its first byte is
a digit or a minus sign so that `parse_value` dispatches to `parse_number`. -/
def num_model_ok (M : FModel) : Prop :=
  ∀ x : M.F, M.parseNum (M.fmt x) = some x ∧ (M.fmt x).all isNumChar = true ∧
    ∃ c cs, M.fmt x = c :: cs ∧ ((48 ≤ c ∧ c ≤ 57) ∨ c = 45)

/-- Fuel needed by the element loop for a list of array elements. -/
def fuelList {F : Type} (xs : List (Json F)) : Nat := (xs.map fun x => 1 + fuelOf x).sum

/-- Fuel needed by the member loop for a list of object members. -/
def fuelMembers {F : Type} (kvs : List (List Nat × Json F)) : Nat :=
  (kvs.map fun kv => 1 + fuelOf kv.2).sum

/-- The parse-back property of one serialized value, used as the induction
hypothesis of the round-trip proof. -/
def rt_prop (M : FModel) (x : Json M.F) : Prop :=
  ∀ (fuel : Nat) (rest : List Nat), fuelOf x ≤ fuel →
    (∀ c, rest.head? = some c → isNumChar c = false) →
    parse_value M fuel (stringify M.fmt x ++ rest) = .ok (x, rest)

/-- The serialized text of one object member, exactly the map body in the
Object arm of `stringify`. -/
def memberStr (M : FModel) (kv : List Nat × Json M.F) : List Nat :=
  34 :: kv.1 ++ [34, 58] ++ stringify M.fmt kv.2

/-- Every element of the list is a `Number`, the shape `handle_method_add`
accepts. -/
def all_numbers {F : Type} : List (Json F) → Bool
  | [] => true
  | .Number _ :: rest => all_numbers rest
  | _ => false

/-- The params shape accepted by `handle_method_add`: an `Array` of
`Number` elements. -/
def add_params_ok {F : Type} : Option (Json F) → Bool
  | some (.Array args) => all_numbers args
  | _ => false

/-- The params shape accepted by `handle_method_subtract`: an `Array` of
exactly two `Number` elements. -/
def sub_params_ok {F : Type} : Option (Json F) → Bool
  | some (.Array [.Number _, .Number _]) => true
  | _ => false

/-- The id variants rejected by `handle_single_json` with an Invalid Request
response. -/
def bad_id {F : Type} : Json F → Bool
  | .Bool _ => true
  | .Array _ => true
  | .Object _ => true
  | _ => false

/-- The responses of the non-notification elements of a batch, in original
order. -/
def batch_outs (M : FModel) (js : List (Json M.F)) : List (List Nat) :=
  js.filterMap fun j =>
    if (handle_element M j).2 then none else some (handle_element M j).1

theorem attach_map_stringify {F : Type} (fmt : F → List Nat) (xs : List (Json F)) :
    xs.attach.map (fun x => stringify fmt x.1) = xs.map (stringify fmt) := by
  rw [List.attach_map_val]

theorem attach_map_member {F : Type} (fmt : F → List Nat) (kvs : List (List Nat × Json F)) :
    kvs.attach.map (fun kv => 34 :: kv.1.1 ++ [34, 58] ++ stringify fmt kv.1.2)
      = kvs.map (fun kv => 34 :: kv.1 ++ [34, 58] ++ stringify fmt kv.2) :=
  List.attach_map_val kvs (fun kv => 34 :: kv.1 ++ [34, 58] ++ stringify fmt kv.2)

theorem stringify_Array {F : Type} (fmt : F → List Nat) (xs : List (Json F)) :
    stringify fmt (.Array xs) = 91 :: joinSep [44] (xs.map (stringify fmt)) ++ [93] := by
  rw [stringify, attach_map_stringify]

theorem stringify_Object {F : Type} (fmt : F → List Nat) (kvs : List (List Nat × Json F)) :
    stringify fmt (.Object kvs) = 123 :: joinSep [44]
      (kvs.map fun kv => 34 :: kv.1 ++ [34, 58] ++ stringify fmt kv.2) ++ [125] := by
  rw [stringify, attach_map_member]

example : strB "ab" = [97, 98] := rfl

example : escape [97, 10] = [34, 97, 92, 110, 34] := rfl

example : parse_with_trailing_whitespace unitModel (strB "null") = .ok .Null := rfl

example : parse_with_trailing_whitespace unitModel (strB "  true ") = .ok (.Bool true) := rfl

example : parse_with_trailing_whitespace intModel (strB "[0,-12]")
    = .ok (.Array [.Number ((0 : Int)), .Number ((-12 : Int))]) := rfl

/-- Induction principle for `Json` that hands membership-based hypotheses for
the nested lists. -/
theorem Json.induct {F : Type} {P : Json F → Prop}
    (hNull : P .Null) (hBool : ∀ b, P (.Bool b)) (hNum : ∀ n, P (.Number n))
    (hStr : ∀ s, P (.String s))
    (hArr : ∀ xs, (∀ x ∈ xs, P x) → P (.Array xs))
    (hObj : ∀ kvs, (∀ kv ∈ kvs, P kv.2) → P (.Object kvs)) :
    ∀ j, P j := by
  have key : ∀ (n : Nat) (j : Json F), sizeOf j ≤ n → P j := by
    intro n
    induction n with
    | zero =>
      intro j hj
      cases j <;> simp at hj
    | succ n ih =>
      intro j hj
      cases j with
      | Null => exact hNull
      | Bool b => exact hBool b
      | Number x => exact hNum x
      | String s => exact hStr s
      | Array xs =>
        refine hArr xs (fun x hx => ih x ?_)
        have hlt := List.sizeOf_lt_of_mem hx
        simp only [Json.Array.sizeOf_spec] at hj
        omega
      | Object kvs =>
        refine hObj kvs (fun kv hkv => ih kv.2 ?_)
        have hlt := List.sizeOf_lt_of_mem hkv
        have hsnd : sizeOf kv.2 < sizeOf kv := by
          obtain ⟨a, b⟩ := kv
          simp
        simp only [Json.Object.sizeOf_spec] at hj
        omega
  exact fun j => key (sizeOf j) j le_rfl

theorem all_attach_eq {α : Type _} (p : α → Bool) (xs : List α) :
    (xs.attach.all fun x => p x.1) = xs.all p := by
  rw [Bool.eq_iff_iff]
  simp only [List.all_eq_true, List.mem_attach, true_implies, Subtype.forall]

theorem clean_Array {F : Type} (xs : List (Json F)) :
    clean (.Array xs) = xs.all clean := by
  rw [clean, all_attach_eq]

theorem clean_Object {F : Type} (kvs : List (List Nat × Json F)) :
    clean (.Object kvs) = kvs.all fun kv => clean_bytes kv.1 && clean kv.2 := by
  rw [clean]
  exact all_attach_eq (fun kv => clean_bytes kv.1 && clean kv.2) kvs

theorem ctrl_free_String {F : Type} (s : List Nat) :
    ctrl_free (.String s : Json F) = s.all fun c => decide (31 < c) := by
  rw [ctrl_free]

theorem fuelOf_Array {F : Type} (xs : List (Json F)) :
    fuelOf (.Array xs) = 2 + (xs.map fun x => 1 + fuelOf x).sum := by
  rw [fuelOf, List.attach_map_val xs (fun x => 1 + fuelOf x)]

theorem fuelOf_Object {F : Type} (kvs : List (List Nat × Json F)) :
    fuelOf (.Object kvs) = 2 + (kvs.map fun kv => 1 + fuelOf kv.2).sum := by
  rw [fuelOf, List.attach_map_val kvs (fun kv => 1 + fuelOf kv.2)]

theorem startsWithBytes_append (l r : List Nat) : startsWithBytes l (l ++ r) = true := by
  induction l with
  | nil => rfl
  | cons c cs ih => simp [startsWithBytes, ih]

theorem parse_identifier_append {F : Type} (lit : List Nat) (val : Json F) (rest : List Nat) :
    parse_identifier lit val (lit ++ rest) = .ok (val, rest) := by
  simp [parse_identifier, startsWithBytes_append, List.drop_left]

theorem take_drop_while_append {p : Nat → Bool} (rest : List Nat)
    (hrest : ∀ c, rest.head? = some c → p c = false) :
    ∀ l : List Nat, l.all p = true →
      (l ++ rest).takeWhile p = l ∧ (l ++ rest).dropWhile p = rest := by
  intro l
  induction l with
  | nil =>
    intro _
    cases rest with
    | nil => simp
    | cons c cs =>
      have hc := hrest c rfl
      simp [List.takeWhile_cons, List.dropWhile_cons, hc]
  | cons a l ih =>
    intro hl
    simp only [List.all_cons, Bool.and_eq_true] at hl
    have h2 := ih hl.2
    simp [List.takeWhile_cons, List.dropWhile_cons, hl.1, h2.1, h2.2]

theorem skip_whitespace_not_ws (c : Nat) (cs : List Nat) (h : isAsciiWs c = false) :
    skip_whitespace (c :: cs) = c :: cs := by
  simp [skip_whitespace, List.dropWhile_cons, h]

theorem isAsciiWs_eq_false {c : Nat} (h9 : c ≠ 9) (h10 : c ≠ 10) (h12 : c ≠ 12)
    (h13 : c ≠ 13) (h32 : c ≠ 32) : isAsciiWs c = false := by
  simp [isAsciiWs]
  omega

theorem escapeByte_clean (c : Nat) (h34 : c ≠ 34) (h92 : c ≠ 92) (hctl : 31 < c) :
    escapeByte c = [c] := by
  unfold escapeByte
  rw [if_neg (by omega), if_neg (by omega), if_neg (by omega), if_neg (by omega),
    if_neg (by omega), if_neg (by omega), if_neg (by omega)]

theorem flatMap_escapeByte_clean : ∀ s : List Nat, clean_bytes s = true →
    s.flatMap escapeByte = s := by
  intro s
  induction s with
  | nil => intro _; rfl
  | cons c cs ih =>
    intro h
    simp only [clean_bytes, List.all_cons, Bool.and_eq_true, decide_eq_true_eq] at h
    have hc := escapeByte_clean c h.1.1 h.1.2.1 h.1.2.2
    have hcs : clean_bytes cs = true := h.2
    rw [List.flatMap_cons, hc, ih hcs]
    rfl

theorem escape_clean (s : List Nat) (h : clean_bytes s = true) :
    escape s = 34 :: (s ++ [34]) := by
  rw [escape, flatMap_escapeByte_clean s h]
  simp

theorem parse_string_loop_quote (f : Nat) (acc rest : List Nat) :
    parse_string_loop (f + 1) acc (34 :: rest) = .ok (acc, rest) := by rfl

theorem parse_string_loop_other (f : Nat) (acc : List Nat) (c : Nat) (cs : List Nat)
    (h34 : c ≠ 34) (h92 : c ≠ 92) :
    parse_string_loop (f + 1) acc (c :: cs) = parse_string_loop f (acc ++ [c]) cs := by
  rw [parse_string_loop.eq_def]
  simp only []
  rw [if_neg h34, if_neg h92]

theorem parse_string_loop_clean (rest : List Nat) :
    ∀ s : List Nat, clean_bytes s = true →
      ∀ (acc : List Nat) (fuel : Nat), s.length + 1 ≤ fuel →
      parse_string_loop fuel acc (s ++ 34 :: rest) = .ok (acc ++ s, rest) := by
  intro s
  induction s with
  | nil =>
    intro _ acc fuel hfuel
    obtain ⟨f, rfl⟩ : ∃ f, fuel = f + 1 := ⟨fuel - 1, by omega⟩
    simp [parse_string_loop_quote]
  | cons c cs ih =>
    intro h acc fuel hfuel
    simp only [clean_bytes, List.all_cons, Bool.and_eq_true, decide_eq_true_eq] at h
    obtain ⟨f, rfl⟩ : ∃ f, fuel = f + 1 := ⟨fuel - 1, by omega⟩
    rw [List.cons_append, parse_string_loop_other f acc c _ h.1.1 h.1.2.1,
      ih h.2 (acc ++ [c]) f (by simp at hfuel ⊢; omega)]
    simp

theorem parse_string_clean (s : List Nat) (hs : clean_bytes s = true) (rest : List Nat) :
    parse_string (34 :: (s ++ 34 :: rest)) = .ok (s, rest) := by
  rw [parse_string]
  have := parse_string_loop_clean rest s hs [] ((34 :: (s ++ 34 :: rest)).length + 1)
    (by simp; omega)
  simpa using this

theorem stringify_head (M : FModel) (hM : num_model_ok M) (v : Json M.F) :
    ∃ c cs, stringify M.fmt v = c :: cs ∧ isAsciiWs c = false ∧ c ≠ 93 ∧ c ≠ 125 ∧ c ≠ 44 := by
  cases v with
  | Null =>
    refine ⟨110, [117, 108, 108], ?_, by decide, by decide, by decide, by decide⟩
    simp [stringify]
    rfl
  | Bool b =>
    cases b with
    | true =>
      refine ⟨116, [114, 117, 101], ?_, by decide, by decide, by decide, by decide⟩
      simp [stringify]
      rfl
    | false =>
      refine ⟨102, [97, 108, 115, 101], ?_, by decide, by decide, by decide, by decide⟩
      simp [stringify]
      rfl
  | Number n =>
    obtain ⟨_, _, c, cs, heq, hc⟩ := hM n
    refine ⟨c, cs, by simp [stringify, heq], isAsciiWs_eq_false (by omega) (by omega) (by omega)
      (by omega) (by omega), by omega, by omega, by omega⟩
  | String s =>
    refine ⟨34, s.flatMap escapeByte ++ [34], ?_, by decide, by decide, by decide, by decide⟩
    simp [stringify, escape]
  | Array xs =>
    refine ⟨91, joinSep [44] (xs.map (stringify M.fmt)) ++ [93], ?_,
      by decide, by decide, by decide, by decide⟩
    rw [stringify_Array]
    simp
  | Object kvs =>
    refine ⟨123, joinSep [44] (kvs.map fun kv => 34 :: kv.1 ++ [34, 58] ++ stringify M.fmt kv.2)
      ++ [125], ?_, by decide, by decide, by decide, by decide⟩
    rw [stringify_Object]
    simp

theorem joinSep_cons (a : List Nat) (as : List (List Nat)) :
    joinSep [44] (a :: as) = a ++ as.flatMap (fun o => 44 :: o) := by
  induction as generalizing a with
  | nil => simp [joinSep]
  | cons b bs ih =>
    have h1 : joinSep [44] (a :: b :: bs) = a ++ [44] ++ joinSep [44] (b :: bs) := rfl
    rw [h1, ih b]
    simp

theorem head_flat_sep (ls : List (List Nat)) (e : Nat) (he : isNumChar e = false)
    (rest : List Nat) :
    ∀ c, ((ls.flatMap fun o => 44 :: o) ++ e :: rest).head? = some c → isNumChar c = false := by
  intro c hc
  cases ls with
  | nil =>
    simp at hc
    rw [← hc]
    exact he
  | cons a as =>
    simp [List.flatMap_cons] at hc
    rw [← hc]
    decide

theorem pal_close (M : FModel) (f : Nat) (first : Bool) (acc : List (Json M.F))
    (rest : List Nat) :
    parse_array_loop M (f + 1) first acc (93 :: rest) = .ok (.Array acc, rest) := by rfl

theorem pal_comma (M : FModel) (f : Nat) (acc : List (Json M.F)) (s : List Nat) :
    parse_array_loop M (f + 1) false acc (44 :: s) =
      match parse_value M f (skip_whitespace s) with
      | .ok (v, rest) => parse_array_loop M f false (acc ++ [v]) rest
      | .error e => .error e := by rfl

theorem pal_first (M : FModel) (f : Nat) (acc : List (Json M.F)) (c : Nat) (r : List Nat)
    (hw : isAsciiWs c = false) (h93 : c ≠ 93) :
    parse_array_loop M (f + 1) true acc (c :: r) =
      match parse_value M f (c :: r) with
      | .ok (v, rest) => parse_array_loop M f false (acc ++ [v]) rest
      | .error e => .error e := by
  rw [parse_array_loop.eq_def]
  simp only []
  rw [skip_whitespace_not_ws c r hw]
  simp only [if_neg h93, if_pos rfl]
  simp

theorem parse_array_loop_elems (M : FModel) (hM : num_model_ok M) (rest : List Nat) :
    ∀ xs : List (Json M.F), (∀ x ∈ xs, rt_prop M x) →
      ∀ (acc : List (Json M.F)) (fuel : Nat), fuelList xs + 1 ≤ fuel →
      parse_array_loop M fuel false acc
        (((xs.map (stringify M.fmt)).flatMap fun o => 44 :: o) ++ 93 :: rest)
        = .ok (.Array (acc ++ xs), rest) := by
  intro xs
  induction xs with
  | nil =>
    intro _ acc fuel hfuel
    obtain ⟨f, rfl⟩ : ∃ f, fuel = f + 1 := ⟨fuel - 1, by omega⟩
    simp only [List.map_nil, List.flatMap_nil, List.nil_append, List.append_nil]
    exact pal_close M f false acc rest
  | cons x xs' ih =>
    intro hRT acc fuel hfuel
    have hx := hRT x (by simp)
    obtain ⟨c, cs, hsx, hcw, hc93, hc125, hc44⟩ := stringify_head M hM x
    have hxs' : ∀ y ∈ xs', rt_prop M y := fun y hy => hRT y (by simp [hy])
    have hfl : fuelList (x :: xs') = 1 + fuelOf x + fuelList xs' := by
      simp [fuelList]
    rw [hfl] at hfuel
    obtain ⟨f, rfl⟩ : ∃ f, fuel = f + 1 := ⟨fuel - 1, by omega⟩
    simp only [List.map_cons, List.flatMap_cons, List.cons_append, List.append_assoc]
    rw [pal_comma]
    rw [hsx, List.cons_append, skip_whitespace_not_ws c _ hcw, ← List.cons_append, ← hsx]
    rw [hx f _ (by omega) (head_flat_sep _ 93 (by decide) rest)]
    show parse_array_loop M f false (acc ++ [x])
      (((xs'.map (stringify M.fmt)).flatMap fun o => 44 :: o) ++ 93 :: rest) = _
    rw [ih hxs' (acc ++ [x]) f (by omega)]
    simp

theorem parse_array_loop_first (M : FModel) (hM : num_model_ok M) (rest : List Nat)
    (xs : List (Json M.F)) (hRT : ∀ x ∈ xs, rt_prop M x)
    (fuel : Nat) (hfuel : fuelList xs + 1 ≤ fuel) :
    parse_array_loop M fuel true [] (joinSep [44] (xs.map (stringify M.fmt)) ++ 93 :: rest)
      = .ok (.Array xs, rest) := by
  cases xs with
  | nil =>
    obtain ⟨f, rfl⟩ : ∃ f, fuel = f + 1 := ⟨fuel - 1, by omega⟩
    simp only [List.map_nil, joinSep, List.nil_append]
    exact pal_close M f true [] rest
  | cons x xs' =>
    have hx := hRT x (by simp)
    obtain ⟨c, cs, hsx, hcw, hc93, hc125, hc44⟩ := stringify_head M hM x
    have hxs' : ∀ y ∈ xs', rt_prop M y := fun y hy => hRT y (by simp [hy])
    have hfl : fuelList (x :: xs') = 1 + fuelOf x + fuelList xs' := by
      simp [fuelList]
    rw [hfl] at hfuel
    obtain ⟨f, rfl⟩ : ∃ f, fuel = f + 1 := ⟨fuel - 1, by omega⟩
    rw [List.map_cons, joinSep_cons, List.append_assoc]
    rw [hsx, List.cons_append]
    rw [pal_first M f [] c _ hcw hc93]
    rw [← List.cons_append, ← hsx]
    rw [hx f _ (by omega) (head_flat_sep _ 93 (by decide) rest)]
    show parse_array_loop M f false [x]
      (((xs'.map (stringify M.fmt)).flatMap fun o => 44 :: o) ++ 93 :: rest) = _
    rw [parse_array_loop_elems M hM rest xs' hxs' [x] f (by omega)]
    simp

theorem pol_close (M : FModel) (f : Nat) (first : Bool) (acc : List (List Nat × Json M.F))
    (rest : List Nat) :
    parse_object_loop M (f + 1) first acc (125 :: rest) = .ok (.Object acc, rest) := by rfl

theorem pol_first (M : FModel) (f : Nat) (acc : List (List Nat × Json M.F)) (r : List Nat) :
    parse_object_loop M (f + 1) true acc (34 :: r) =
      match parse_string (34 :: r) with
      | .error e => .error e
      | .ok (key, r1) =>
        match skip_whitespace r1 with
        | [] => .error ⟨"unexpected"⟩
        | c3 :: r2 =>
          if c3 = 58 then
            match parse_value M f (skip_whitespace r2) with
            | .ok (v, rest) => parse_object_loop M f false (acc ++ [(key, v)]) rest
            | .error e => .error e
          else .error ⟨"unexpected"⟩ := by rfl

theorem pol_comma (M : FModel) (f : Nat) (acc : List (List Nat × Json M.F)) (r : List Nat) :
    parse_object_loop M (f + 1) false acc (44 :: r) =
      match parse_string (skip_whitespace r) with
      | .error e => .error e
      | .ok (key, r1) =>
        match skip_whitespace r1 with
        | [] => .error ⟨"unexpected"⟩
        | c3 :: r2 =>
          if c3 = 58 then
            match parse_value M f (skip_whitespace r2) with
            | .ok (v, rest) => parse_object_loop M f false (acc ++ [(key, v)]) rest
            | .error e => .error e
          else .error ⟨"unexpected"⟩ := by rfl

theorem pol_member (M : FModel) (hM : num_model_ok M) (f : Nat)
    (acc : List (List Nat × Json M.F))
    (k : List Nat) (hk : clean_bytes k = true) (v : Json M.F) (hv : rt_prop M v)
    (R : List Nat) (hR : ∀ c, R.head? = some c → isNumChar c = false)
    (hfv : fuelOf v ≤ f) :
    (match parse_string (34 :: (k ++ 34 :: 58 :: (stringify M.fmt v ++ R))) with
      | .error e => .error e
      | .ok (key, r1) =>
        match skip_whitespace r1 with
        | [] => .error ⟨"unexpected"⟩
        | c3 :: r2 =>
          if c3 = 58 then
            match parse_value M f (skip_whitespace r2) with
            | .ok (v2, rest) => parse_object_loop M f false (acc ++ [(key, v2)]) rest
            | .error e => .error e
          else .error ⟨"unexpected"⟩)
      = parse_object_loop M f false (acc ++ [(k, v)]) R := by
  obtain ⟨c, cs, hsx, hcw, hc93, hc125, hc44⟩ := stringify_head M hM v
  rw [parse_string_clean k hk]
  simp only []
  rw [skip_whitespace_not_ws 58 _ (by decide)]
  simp only [if_pos rfl]
  rw [hsx, List.cons_append, skip_whitespace_not_ws c _ hcw, ← List.cons_append, ← hsx]
  rw [hv f R hfv hR]
  simp

theorem stringify_Object_mem (M : FModel) (kvs : List (List Nat × Json M.F)) :
    stringify M.fmt (.Object kvs) = 123 :: joinSep [44] (kvs.map (memberStr M)) ++ [125] := by
  rw [stringify_Object]
  rfl

theorem parse_object_loop_elems (M : FModel) (hM : num_model_ok M) (rest : List Nat) :
    ∀ kvs : List (List Nat × Json M.F),
      (∀ kv ∈ kvs, clean_bytes kv.1 = true ∧ rt_prop M kv.2) →
      ∀ (acc : List (List Nat × Json M.F)) (fuel : Nat), fuelMembers kvs + 1 ≤ fuel →
      parse_object_loop M fuel false acc
        (((kvs.map (memberStr M)).flatMap fun o => 44 :: o) ++ 125 :: rest)
        = .ok (.Object (acc ++ kvs), rest) := by
  intro kvs
  induction kvs with
  | nil =>
    intro _ acc fuel hfuel
    obtain ⟨f, rfl⟩ : ∃ f, fuel = f + 1 := ⟨fuel - 1, by omega⟩
    simp only [List.map_nil, List.flatMap_nil, List.nil_append, List.append_nil]
    exact pol_close M f false acc rest
  | cons kv kvs' ih =>
    intro hKV acc fuel hfuel
    obtain ⟨k, v⟩ := kv
    have hkv := hKV (k, v) (by simp)
    have hkvs' : ∀ y ∈ kvs', clean_bytes y.1 = true ∧ rt_prop M y.2 :=
      fun y hy => hKV y (by simp [hy])
    have hfl : fuelMembers ((k, v) :: kvs') = 1 + fuelOf v + fuelMembers kvs' := by
      simp [fuelMembers]
    rw [hfl] at hfuel
    obtain ⟨f, rfl⟩ : ∃ f, fuel = f + 1 := ⟨fuel - 1, by omega⟩
    simp only [List.map_cons, List.flatMap_cons, memberStr, List.cons_append,
      List.append_assoc, List.nil_append]
    rw [pol_comma, skip_whitespace_not_ws 34 _ (by decide)]
    rw [pol_member M hM f acc k hkv.1 v hkv.2 _ (head_flat_sep _ 125 (by decide) rest) (by omega)]
    rw [ih hkvs' (acc ++ [(k, v)]) f (by omega)]
    simp

theorem parse_object_loop_first (M : FModel) (hM : num_model_ok M) (rest : List Nat)
    (kvs : List (List Nat × Json M.F))
    (hKV : ∀ kv ∈ kvs, clean_bytes kv.1 = true ∧ rt_prop M kv.2)
    (fuel : Nat) (hfuel : fuelMembers kvs + 1 ≤ fuel) :
    parse_object_loop M fuel true []
      (joinSep [44] (kvs.map (memberStr M)) ++ 125 :: rest)
      = .ok (.Object kvs, rest) := by
  cases kvs with
  | nil =>
    obtain ⟨f, rfl⟩ : ∃ f, fuel = f + 1 := ⟨fuel - 1, by omega⟩
    simp only [List.map_nil, joinSep, List.nil_append]
    exact pol_close M f true [] rest
  | cons kv kvs' =>
    obtain ⟨k, v⟩ := kv
    have hkv := hKV (k, v) (by simp)
    have hkvs' : ∀ y ∈ kvs', clean_bytes y.1 = true ∧ rt_prop M y.2 :=
      fun y hy => hKV y (by simp [hy])
    have hfl : fuelMembers ((k, v) :: kvs') = 1 + fuelOf v + fuelMembers kvs' := by
      simp [fuelMembers]
    rw [hfl] at hfuel
    obtain ⟨f, rfl⟩ : ∃ f, fuel = f + 1 := ⟨fuel - 1, by omega⟩
    rw [List.map_cons, joinSep_cons]
    simp only [memberStr, List.cons_append, List.append_assoc, List.nil_append]
    rw [pol_first]
    rw [pol_member M hM f [] k hkv.1 v hkv.2 _ (head_flat_sep _ 125 (by decide) rest) (by omega)]
    rw [show ([] ++ [(k, v)] : List (List Nat × Json M.F)) = [(k, v)] from rfl]
    rw [parse_object_loop_elems M hM rest kvs' hkvs' [(k, v)] f (by omega)]
    simp

theorem parse_value_stringify (M : FModel) (hM : num_model_ok M) :
    ∀ v : Json M.F, clean v = true → rt_prop M v := by
  intro v
  induction v using Json.induct with
  | hNull =>
    intro _ fuel rest hfuel hrest
    have h1 : fuelOf (.Null : Json M.F) = 1 := by simp [fuelOf]
    obtain ⟨f, rfl⟩ : ∃ f, fuel = f + 1 := ⟨fuel - 1, by omega⟩
    rw [show stringify M.fmt (.Null : Json M.F) = strB "null" by simp [stringify]]
    rw [show (strB "null" : List Nat) = [110, 117, 108, 108] from rfl]
    rw [show ([110, 117, 108, 108] : List Nat) ++ rest = 110 :: ([117, 108, 108] ++ rest)
      from rfl]
    rw [show parse_value M (f + 1) (110 :: ([117, 108, 108] ++ rest))
      = parse_identifier (strB "null") .Null (110 :: ([117, 108, 108] ++ rest)) from rfl]
    exact parse_identifier_append (strB "null") Json.Null rest
  | hBool b =>
    intro _ fuel rest hfuel hrest
    have h1 : fuelOf (.Bool b : Json M.F) = 1 := by simp [fuelOf]
    obtain ⟨f, rfl⟩ : ∃ f, fuel = f + 1 := ⟨fuel - 1, by omega⟩
    cases b with
    | true =>
      rw [show stringify M.fmt (.Bool true : Json M.F) = strB "true" by simp [stringify]]
      rw [show (strB "true" : List Nat) = [116, 114, 117, 101] from rfl]
      rw [show ([116, 114, 117, 101] : List Nat) ++ rest = 116 :: ([114, 117, 101] ++ rest)
        from rfl]
      rw [show parse_value M (f + 1) (116 :: ([114, 117, 101] ++ rest))
        = parse_identifier (strB "true") (.Bool true) (116 :: ([114, 117, 101] ++ rest))
        from rfl]
      exact parse_identifier_append (strB "true") (Json.Bool true) rest
    | false =>
      rw [show stringify M.fmt (.Bool false : Json M.F) = strB "false" by simp [stringify]]
      rw [show (strB "false" : List Nat) = [102, 97, 108, 115, 101] from rfl]
      rw [show ([102, 97, 108, 115, 101] : List Nat) ++ rest
        = 102 :: ([97, 108, 115, 101] ++ rest) from rfl]
      rw [show parse_value M (f + 1) (102 :: ([97, 108, 115, 101] ++ rest))
        = parse_identifier (strB "false") (.Bool false) (102 :: ([97, 108, 115, 101] ++ rest))
        from rfl]
      exact parse_identifier_append (strB "false") (Json.Bool false) rest
  | hNum n =>
    intro _ fuel rest hfuel hrest
    obtain ⟨hparse, hall, c, cs, heq, hc⟩ := hM n
    have h1 : fuelOf (.Number n : Json M.F) = 1 := by simp [fuelOf]
    obtain ⟨f, rfl⟩ : ∃ f, fuel = f + 1 := ⟨fuel - 1, by omega⟩
    rw [show stringify M.fmt (.Number n) = M.fmt n by simp [stringify]]
    rw [heq, List.cons_append]
    have hd : parse_value M (f + 1) (c :: (cs ++ rest)) = parse_number M (c :: (cs ++ rest)) := by
      rw [parse_value.eq_def]
      simp only []
      rw [if_neg (by omega), if_neg (by omega), if_neg (by omega), if_pos hc]
    rw [hd]
    show parse_number M ((c :: cs) ++ rest) = .ok (.Number n, rest)
    have ht := take_drop_while_append (p := isNumChar) rest hrest (c :: cs)
      (by rw [← heq]; exact hall)
    rw [parse_number, ht.1, ht.2, ← heq, hparse]
  | hStr s =>
    intro hc fuel rest hfuel hrest
    have hc' : clean_bytes s = true := by
      rw [show clean (.String s : Json M.F) = clean_bytes s by simp [clean]] at hc
      exact hc
    have h1 : fuelOf (.String s : Json M.F) = 1 := by simp [fuelOf]
    obtain ⟨f, rfl⟩ : ∃ f, fuel = f + 1 := ⟨fuel - 1, by omega⟩
    rw [show stringify M.fmt (.String s) = escape s by simp [stringify]]
    rw [escape_clean s hc', List.cons_append, List.append_assoc, List.singleton_append]
    have hd : parse_value M (f + 1) (34 :: (s ++ 34 :: rest)) =
        match parse_string (34 :: (s ++ 34 :: rest)) with
        | .ok (t, r) => .ok (.String t, r)
        | .error e => .error e := by rfl
    rw [hd, parse_string_clean s hc' rest]
  | hArr xs ihmem =>
    intro hc fuel rest hfuel hrest
    have hcs : ∀ x ∈ xs, clean x = true := by
      rw [clean_Array] at hc
      simpa [List.all_eq_true] using hc
    have hRT : ∀ x ∈ xs, rt_prop M x := fun x hx => ihmem x hx (hcs x hx)
    rw [fuelOf_Array] at hfuel
    have hfl : fuelList xs = (xs.map fun x => 1 + fuelOf x).sum := rfl
    obtain ⟨f, rfl⟩ : ∃ f, fuel = f + 1 := ⟨fuel - 1, by omega⟩
    rw [stringify_Array]
    simp only [List.cons_append, List.append_assoc, List.singleton_append, List.nil_append]
    rw [show parse_value M (f + 1)
        (91 :: (joinSep [44] (xs.map (stringify M.fmt)) ++ 93 :: rest))
      = parse_array_loop M f true [] (joinSep [44] (xs.map (stringify M.fmt)) ++ 93 :: rest)
      from rfl]
    exact parse_array_loop_first M hM rest xs hRT f (by omega)
  | hObj kvs ihmem =>
    intro hc fuel rest hfuel hrest
    have hKV : ∀ kv ∈ kvs, clean_bytes kv.1 = true ∧ rt_prop M kv.2 := by
      rw [clean_Object] at hc
      intro kv hkv
      have := (List.all_eq_true.mp hc) kv hkv
      simp only [Bool.and_eq_true] at this
      exact ⟨this.1, ihmem kv hkv this.2⟩
    rw [fuelOf_Object] at hfuel
    have hfl : fuelMembers kvs = (kvs.map fun kv => 1 + fuelOf kv.2).sum := rfl
    obtain ⟨f, rfl⟩ : ∃ f, fuel = f + 1 := ⟨fuel - 1, by omega⟩
    rw [stringify_Object_mem]
    simp only [List.cons_append, List.append_assoc, List.singleton_append, List.nil_append]
    rw [show parse_value M (f + 1)
        (123 :: (joinSep [44] (kvs.map (memberStr M)) ++ 125 :: rest))
      = parse_object_loop M f true [] (joinSep [44] (kvs.map (memberStr M)) ++ 125 :: rest)
      from rfl]
    exact parse_object_loop_first M hM rest kvs hKV f (by omega)

theorem sum_fuel_le_flat_arr (M : FModel) :
    ∀ xs : List (Json M.F), (∀ x ∈ xs, fuelOf x ≤ 2 * (stringify M.fmt x).length + 1) →
      (xs.map fun x => 1 + fuelOf x).sum
        ≤ 2 * ((xs.map (stringify M.fmt)).flatMap fun o => 44 :: o).length + 1 := by
  intro xs
  induction xs with
  | nil => simp
  | cons x xs' ih =>
    intro h
    have hx := h x (by simp)
    have ih' := ih (fun y hy => h y (by simp [hy]))
    simp only [List.map_cons, List.flatMap_cons, List.sum_cons, List.length_append,
      List.length_cons]
    omega

theorem sum_fuel_le_flat_obj (M : FModel) :
    ∀ kvs : List (List Nat × Json M.F),
      (∀ kv ∈ kvs, fuelOf kv.2 ≤ 2 * (stringify M.fmt kv.2).length + 1) →
      (kvs.map fun kv => 1 + fuelOf kv.2).sum
        ≤ 2 * ((kvs.map (memberStr M)).flatMap fun o => 44 :: o).length + 1 := by
  intro kvs
  induction kvs with
  | nil => simp
  | cons kv kvs' ih =>
    intro h
    have hx := h kv (by simp)
    have ih' := ih (fun y hy => h y (by simp [hy]))
    have hlen : (memberStr M kv).length = 3 + kv.1.length + (stringify M.fmt kv.2).length := by
      simp [memberStr]
      omega
    simp only [List.map_cons, List.flatMap_cons, List.sum_cons, List.length_append,
      List.length_cons, hlen]
    omega

theorem fuelOf_le_two_len (M : FModel) : ∀ v : Json M.F,
    fuelOf v ≤ 2 * (stringify M.fmt v).length + 1 := by
  intro v
  induction v using Json.induct with
  | hNull =>
    have h1 : fuelOf (.Null : Json M.F) = 1 := by simp [fuelOf]
    omega
  | hBool b =>
    have h1 : fuelOf (.Bool b : Json M.F) = 1 := by simp [fuelOf]
    omega
  | hNum n =>
    have h1 : fuelOf (.Number n : Json M.F) = 1 := by simp [fuelOf]
    omega
  | hStr s =>
    have h1 : fuelOf (.String s : Json M.F) = 1 := by simp [fuelOf]
    omega
  | hArr xs ih =>
    rw [fuelOf_Array, stringify_Array]
    cases xs with
    | nil => simp [joinSep]
    | cons x xs' =>
      have hx := ih x (by simp)
      have hflat := sum_fuel_le_flat_arr M xs' (fun y hy => ih y (by simp [hy]))
      simp only [List.map_cons, List.sum_cons]
      rw [joinSep_cons]
      simp only [List.length_cons, List.length_append]
      omega
  | hObj kvs ih =>
    rw [fuelOf_Object, stringify_Object_mem]
    cases kvs with
    | nil => simp [joinSep]
    | cons kv kvs' =>
      have hx := ih kv (by simp)
      have hflat := sum_fuel_le_flat_obj M kvs' (fun y hy => ih y (by simp [hy]))
      have hlen : (memberStr M kv).length = 3 + kv.1.length + (stringify M.fmt kv.2).length := by
        simp [memberStr]
        omega
      simp only [List.map_cons, List.sum_cons]
      rw [joinSep_cons]
      simp only [List.length_cons, List.length_append, hlen]
      omega

theorem stringify_round_trip (M : FModel) (hM : num_model_ok M) (v : Json M.F)
    (hv : clean v = true) :
    parse_with_trailing_whitespace M (stringify M.fmt v) = .ok v := by
  obtain ⟨c, cs, hsx, hcw, h93, h125, h44⟩ := stringify_head M hM v
  rw [parse_with_trailing_whitespace, hsx, skip_whitespace_not_ws c cs hcw, ← hsx]
  have hrt := parse_value_stringify M hM v hv (2 * (stringify M.fmt v).length + 1) []
    (fuelOf_le_two_len M v) (by simp)
  rw [List.append_nil] at hrt
  rw [hrt]
  rfl

theorem sum_args_map (M : FModel) :
    ∀ (xs : List M.F) (acc : M.F), sum_args M acc (xs.map .Number) = some (xs.foldl M.add acc) := by
  intro xs
  induction xs with
  | nil => intro acc; rfl
  | cons x xs' ih =>
    intro acc
    simp only [List.map_cons, List.foldl_cons]
    exact ih (M.add acc x)

theorem sum_args_none (M : FModel) :
    ∀ args : List (Json M.F), all_numbers args = false →
      ∀ acc, sum_args M acc args = none := by
  intro args
  induction args with
  | nil => intro h; simp [all_numbers] at h
  | cons j rest ih =>
    intro h acc
    cases j with
    | Number x =>
      have h' : all_numbers rest = false := by simpa [all_numbers] using h
      exact ih h' (M.add acc x)
    | Null => rfl
    | Bool b => rfl
    | String s => rfl
    | Array xs => rfl
    | Object kvs => rfl

/-- C4: with a valid id, method add sums an all-Number params array starting
from zero, subtract takes the difference of exactly two Numbers, and every
other params shape produces the Invalid Params error response keyed to the
request id with code -32602. -/
theorem C4_add_subtract_params (M : FModel) :
    (∀ (kvs : List (List Nat × Json M.F)) (id : Json M.F) (xs : List M.F),
      get kvs (strB "params") = some (.Array (xs.map .Number)) →
      handle_method_add M kvs id = stringify M.fmt (.Object [
        (strB "jsonrpc", .String (strB "2.0")), (strB "id", id),
        (strB "result", .Number (xs.foldl M.add M.zero))]))
  ∧ (∀ (kvs : List (List Nat × Json M.F)) (id : Json M.F) (a b : M.F),
      get kvs (strB "params") = some (.Array [.Number a, .Number b]) →
      handle_method_subtract M kvs id = stringify M.fmt (.Object [
        (strB "jsonrpc", .String (strB "2.0")), (strB "id", id),
        (strB "result", .Number (M.sub a b))]))
  ∧ (∀ (kvs : List (List Nat × Json M.F)) (id : Json M.F),
      add_params_ok (get kvs (strB "params")) = false →
      handle_method_add M kvs id
        = response_error M (-32602) id (strB "Invalid method parameter"))
  ∧ (∀ (kvs : List (List Nat × Json M.F)) (id : Json M.F),
      sub_params_ok (get kvs (strB "params")) = false →
      handle_method_subtract M kvs id
        = response_error M (-32602) id (strB "Invalid method parameter")) := by
  refine ⟨?_, ?_, ?_, ?_⟩
  · intro kvs id xs hget
    simp only [handle_method_add, hget, sum_args_map]
  · intro kvs id a b hget
    simp only [handle_method_subtract, hget]
    simp
  · intro kvs id h
    cases hget : get kvs (strB "params") with
    | none => simp [handle_method_add, hget, response_invalid_parameters]
    | some j =>
      cases j with
      | Array args =>
        rw [hget] at h
        simp only [add_params_ok] at h
        simp [handle_method_add, hget, sum_args_none M args h M.zero,
          response_invalid_parameters]
      | Null => simp [handle_method_add, hget, response_invalid_parameters]
      | Bool b => simp [handle_method_add, hget, response_invalid_parameters]
      | Number n => simp [handle_method_add, hget, response_invalid_parameters]
      | String s => simp [handle_method_add, hget, response_invalid_parameters]
      | Object kv => simp [handle_method_add, hget, response_invalid_parameters]
  · intro kvs id h
    cases hget : get kvs (strB "params") with
    | none => simp [handle_method_subtract, hget, response_invalid_parameters]
    | some j =>
      cases j with
      | Array args =>
        rw [hget] at h
        match args with
        | [] => simp [handle_method_subtract, hget, response_invalid_parameters]
        | [x] => simp [handle_method_subtract, hget, response_invalid_parameters]
        | x :: y :: z :: t =>
          simp [handle_method_subtract, hget, response_invalid_parameters, List.length_cons]
        | [x, y] =>
          cases x <;> cases y <;>
            simp_all [handle_method_subtract, hget, sub_params_ok,
              response_invalid_parameters]
      | Null => simp [handle_method_subtract, hget, response_invalid_parameters]
      | Bool b => simp [handle_method_subtract, hget, response_invalid_parameters]
      | Number n => simp [handle_method_subtract, hget, response_invalid_parameters]
      | String s => simp [handle_method_subtract, hget, response_invalid_parameters]
      | Object kv => simp [handle_method_subtract, hget, response_invalid_parameters]

/-- Witness for C4 at concrete requests: add of params 1 and 2 yields result
3, subtract of 5 and 3 yields 2, an absent params field is Invalid Params,
and a three-element subtract params array is Invalid Params. -/
theorem C4_add_subtract_params_witness :
    handle_method_add intModel
        [(strB "params", .Array [.Number ((1 : Int)), .Number ((2 : Int))])]
        (.Number ((7 : Int)))
      = stringify intModel.fmt (.Object [
          (strB "jsonrpc", .String (strB "2.0")), (strB "id", .Number ((7 : Int))),
          (strB "result", .Number ((3 : Int)))])
  ∧ handle_method_subtract intModel
        [(strB "params", .Array [.Number ((5 : Int)), .Number ((3 : Int))])]
        (.Number ((7 : Int)))
      = stringify intModel.fmt (.Object [
          (strB "jsonrpc", .String (strB "2.0")), (strB "id", .Number ((7 : Int))),
          (strB "result", .Number ((2 : Int)))])
  ∧ handle_method_add intModel [] (.Number ((7 : Int)))
      = response_error intModel (-32602) (.Number ((7 : Int))) (strB "Invalid method parameter")
  ∧ handle_method_subtract intModel
        [(strB "params", .Array [.Number ((1 : Int)), .Number ((2 : Int)), .Number ((3 : Int))])]
        (.Number ((7 : Int)))
      = response_error intModel (-32602) (.Number ((7 : Int))) (strB "Invalid method parameter") :=
  ⟨(C4_add_subtract_params intModel).1 _ _ [(1 : Int), (2 : Int)] rfl,
   (C4_add_subtract_params intModel).2.1 _ _ ((5 : Int)) ((3 : Int)) rfl,
   (C4_add_subtract_params intModel).2.2.1 _ _ (by rfl),
   (C4_add_subtract_params intModel).2.2.2 _ _ (by rfl)⟩

/-- C5: with a valid jsonrpc field, an absent id or a Null id makes the
request a notification with no output at all, while a Bool, Array, or Object
id produces exactly one Invalid Request error response with code -32600 and
id Null. -/
theorem C5_id_notification (M : FModel) (kvs : List (List Nat × Json M.F))
    (hver : get kvs (strB "jsonrpc") = some (.String (strB "2.0"))) :
    (get kvs (strB "id") = none → handle_single_json M kvs = ([], true))
  ∧ (get kvs (strB "id") = some .Null → handle_single_json M kvs = ([], true))
  ∧ (∀ id, get kvs (strB "id") = some id → bad_id id = true →
      handle_single_json M kvs
        = (response_error M (-32600) .Null (strB "Invalid Request"), false)) := by
  refine ⟨?_, ?_, ?_⟩
  · intro h
    simp [handle_single_json, hver, h]
  · intro h
    simp [handle_single_json, hver, h]
  · intro id h hbad
    cases id <;> simp [bad_id] at hbad <;>
      simp [handle_single_json, hver, h, response_invalid_request]

/-- Witness for C5 at concrete requests: absent id, Null id, and a Bool id. -/
theorem C5_id_notification_witness :
    handle_single_json intModel [(strB "jsonrpc", .String (strB "2.0"))] = ([], true)
  ∧ handle_single_json intModel
      [(strB "jsonrpc", .String (strB "2.0")), (strB "id", .Null)] = ([], true)
  ∧ handle_single_json intModel
      [(strB "jsonrpc", .String (strB "2.0")), (strB "id", .Bool true)]
      = (response_error intModel (-32600) .Null (strB "Invalid Request"), false) :=
  ⟨(C5_id_notification intModel [(strB "jsonrpc", .String (strB "2.0"))] rfl).1 rfl,
   (C5_id_notification intModel
     [(strB "jsonrpc", .String (strB "2.0")), (strB "id", .Null)] rfl).2.1 rfl,
   (C5_id_notification intModel
     [(strB "jsonrpc", .String (strB "2.0")), (strB "id", .Bool true)] rfl).2.2
     (.Bool true) rfl rfl⟩

/-- C6: the empty batch array produces exactly one Invalid Request error
response with code -32600 and id Null, and is not treated as a
notification. -/
theorem C6_empty_batch (M : FModel) :
    handle_json M (.Array []) = (response_error M (-32600) .Null (strB "Invalid Request"), false)
    := rfl

theorem batch_loop_cons (M : FModel) (j : Json M.F) (js : List (Json M.F)) (first : Bool)
    (res : List Nat) :
    batch_loop M (j :: js) first res
      = (if (handle_element M j).2 then batch_loop M js first res
         else batch_loop M js false
           (res ++ (if first then [91] else [44]) ++ (handle_element M j).1)) := rfl

theorem batch_outs_cons (M : FModel) (j : Json M.F) (js : List (Json M.F)) :
    batch_outs M (j :: js)
      = (if (handle_element M j).2 then batch_outs M js
         else (handle_element M j).1 :: batch_outs M js) := by
  simp only [batch_outs, List.filterMap_cons]
  cases h : (handle_element M j).2 <;> simp [h]

theorem batch_loop_false_eq (M : FModel) : ∀ (js : List (Json M.F)) (res : List Nat),
    batch_loop M js false res
      = (res ++ (batch_outs M js).flatMap (fun o => 44 :: o) ++ [93], false) := by
  intro js
  induction js with
  | nil => intro res; simp [batch_loop, batch_outs]
  | cons j js' ih =>
    intro res
    rw [batch_loop_cons, batch_outs_cons]
    cases h : (handle_element M j).2 with
    | true => simp [ih res]
    | false =>
      simp only [Bool.false_eq_true, if_false, ih (res ++ [44] ++ (handle_element M j).1)]
      simp [List.flatMap_cons]

theorem batch_loop_true_eq (M : FModel) : ∀ js : List (Json M.F),
    batch_loop M js true []
      = (if batch_outs M js = [] then ([], true)
         else ([91] ++ joinSep [44] (batch_outs M js) ++ [93], false)) := by
  intro js
  induction js with
  | nil => simp [batch_loop, batch_outs]
  | cons j js' ih =>
    rw [batch_loop_cons, batch_outs_cons]
    cases h : (handle_element M j).2 with
    | true => simp [ih]
    | false =>
      simp only [Bool.false_eq_true, if_false]
      simp only [List.nil_append, if_true]
      rw [batch_loop_false_eq M js' ([91] ++ (handle_element M j).1)]
      have hne : (handle_element M j).1 :: batch_outs M js' ≠ [] := by simp
      rw [if_neg hne, joinSep_cons]
      simp

/-- C7: in a non-empty batch each element is handled independently, with
non-Object elements answered by a per-element Invalid Request error; the
non-notification responses are emitted as one comma-joined bracketed array in
original order, and a batch of only notifications emits nothing at all. -/
theorem C7_batch_semantics (M : FModel) (js : List (Json M.F)) (hne : js ≠ []) :
    (∀ j ∈ js, (∀ kvs, j ≠ .Object kvs) →
      handle_element M j = (response_error M (-32600) .Null (strB "Invalid Request"), false))
  ∧ handle_json M (.Array js)
      = (if batch_outs M js = [] then ([], true)
         else ([91] ++ joinSep [44] (batch_outs M js) ++ [93], false)) := by
  constructor
  · intro j hj hobj
    cases j with
    | Object kvs => exact absurd rfl (hobj kvs)
    | Null => rfl
    | Bool b => rfl
    | Number n => rfl
    | String s => rfl
    | Array xs => rfl
  · cases js with
    | nil => exact absurd rfl hne
    | cons j js' =>
      show batch_loop M (j :: js') true [] = _
      exact batch_loop_true_eq M (j :: js')

/-- Witness for C7 at a concrete two-element batch: a non-Object element and
a notification element; only the former produces a response, emitted in a
bracketed array. -/
theorem C7_batch_semantics_witness :
    ([(.Null : Json intModel.F),
      .Object [(strB "jsonrpc", .String (strB "2.0"))]] ≠ [])
  ∧ handle_json intModel (.Array [.Null, .Object [(strB "jsonrpc", .String (strB "2.0"))]])
      = (if batch_outs intModel [.Null, .Object [(strB "jsonrpc", .String (strB "2.0"))]] = []
         then ([], true)
         else ([91] ++ joinSep [44]
            (batch_outs intModel [.Null, .Object [(strB "jsonrpc", .String (strB "2.0"))]])
            ++ [93], false)) :=
  ⟨by simp,
   (C7_batch_semantics intModel [.Null, .Object [(strB "jsonrpc", .String (strB "2.0"))]]
     (by simp)).2⟩

/-- C8: parsing an object with a duplicate key keeps both entries in
insertion order, and a keyed lookup returns the first occurrence; in general
`get` on a list headed by a matching key returns that first value. -/
theorem C8_duplicate_keys :
    parse_with_trailing_whitespace intModel (strB "\x7b\"a\":1,\"a\":2\x7d")
      = .ok (.Object [(strB "a", .Number ((1 : Int))), (strB "a", .Number ((2 : Int)))])
  ∧ (∀ (F : Type) (kvs : List (List Nat × Json F)) (k : List Nat) (v : Json F),
      get ((k, v) :: kvs) k = some v)
  ∧ get [(strB "a", .Number ((1 : Int))), (strB "a", .Number ((2 : Int)))] (strB "a")
      = some (.Number ((1 : Int))) := by
  refine ⟨rfl, ?_, rfl⟩
  intro F kvs k v
  have h : get ((k, v) :: kvs) k = if k = k then some v else get kvs k := rfl
  rw [h, if_pos rfl]

/-- C9: an unterminated string literal parses successfully, returning the
bytes accumulated up to the end of input; an input ending in a lone
backslash likewise succeeds with the backslash dropped. -/
theorem C9_unterminated_string (M : FModel) :
    parse_with_trailing_whitespace M (strB "\"abc") = .ok (.String (strB "abc"))
  ∧ parse_with_trailing_whitespace M [34, 97, 98, 92] = .ok (.String [97, 98]) :=
  ⟨rfl, rfl⟩

/-- C2: evaluation of the parser at the escaped inputs backslash-n and
backslash-backslash. The simple-escape branch of `parse_string` pushes the
deescaped byte without advancing past the escape character, so that
character is consumed a second time literally: parsing the four-byte input
quote backslash n quote yields the two-byte string newline then n, and
parsing quote backslash backslash quote yields backslash then quote,
consuming the closing quote as the escaped character. -/
theorem C2_escape_bug_evaluation (M : FModel) :
    parse_with_trailing_whitespace M [34, 92, 110, 34] = .ok (.String [10, 110])
  ∧ parse_with_trailing_whitespace M [34, 92, 92, 34] = .ok (.String [92, 34]) :=
  ⟨rfl, rfl⟩

theorem dropWhile_append_all {α : Type _} (p : α → Bool) :
    ∀ (w l : List α), w.all p = true → (w ++ l).dropWhile p = l.dropWhile p := by
  intro w l
  induction w with
  | nil => intro _; rfl
  | cons a w' ih =>
    intro h
    simp only [List.all_cons, Bool.and_eq_true] at h
    simp [List.dropWhile_cons, h.1, ih h.2]

theorem dropWhile_append_ne {α : Type _} (p : α → Bool) :
    ∀ (l w : List α), l.dropWhile p ≠ [] → (l ++ w).dropWhile p = l.dropWhile p ++ w := by
  intro l w
  induction l with
  | nil => intro h; exact absurd rfl h
  | cons a l' ih =>
    intro h
    cases hpa : p a with
    | true =>
      rw [List.dropWhile_cons_of_pos hpa] at h
      simp [List.dropWhile_cons, hpa, ih h]
    | false =>
      simp [List.dropWhile_cons, hpa]

theorem trim_invariant (ws1 ws2 line : List Char) (h1 : ws1.all isRustWs = true)
    (h2 : ws2.all isRustWs = true) : trim (ws1 ++ line ++ ws2) = trim line := by
  unfold trim trimStart trimEnd
  rw [List.append_assoc, dropWhile_append_all isRustWs ws1 (line ++ ws2) h1]
  by_cases hnil : line.dropWhile isRustWs = []
  · have hall : ∀ x ∈ line, isRustWs x = true := List.dropWhile_eq_nil_iff.mp hnil
    have : (line ++ ws2).dropWhile isRustWs = [] := by
      rw [dropWhile_append_all isRustWs line ws2 (List.all_eq_true.mpr hall)]
      exact List.dropWhile_eq_nil_iff.mpr (List.all_eq_true.mp h2)
    rw [this, hnil]
  · rw [dropWhile_append_ne isRustWs line ws2 hnil, List.reverse_append,
      dropWhile_append_all isRustWs ws2.reverse (line.dropWhile isRustWs).reverse
        (by rw [List.all_reverse]; exact h2)]

/-- C10: a line consisting only of whitespace produces no output at all, and
the output for any line is invariant under surrounding whitespace, because
the line is trimmed before parsing. -/
theorem C10_blank_lines (M : FModel) :
    (∀ line : List Char, line.all isRustWs = true → handle_line M line = [])
  ∧ (∀ ws1 ws2 line : List Char, ws1.all isRustWs = true → ws2.all isRustWs = true →
      handle_line M (ws1 ++ line ++ ws2) = handle_line M line) := by
  constructor
  · intro line h
    have htrim : trim line = [] := by
      unfold trim trimStart trimEnd
      rw [List.dropWhile_eq_nil_iff.mpr (List.all_eq_true.mp h)]
      rfl
    simp [handle_line, htrim]
  · intro ws1 ws2 line h1 h2
    simp only [handle_line, trim_invariant ws1 ws2 line h1 h2]

/-- Witness for C10: a tab-space line produces no output, and surrounding
whitespace does not change the response to a null line. -/
theorem C10_blank_lines_witness :
    handle_line intModel [' ', '\t', ' '] = []
  ∧ handle_line intModel ([' '] ++ ['n', 'u', 'l', 'l'] ++ ['\t'])
      = handle_line intModel ['n', 'u', 'l', 'l'] :=
  ⟨(C10_blank_lines intModel).1 [' ', '\t', ' '] (by decide),
   (C10_blank_lines intModel).2 [' '] ['\t'] ['n', 'u', 'l', 'l'] (by decide) (by decide)⟩

/-- Counterexample to C3 as stated: stringify of an object whose key is a
double quote does not escape the key the way a String value is escaped. -/
theorem C3_counterexample :
    ¬ (stringify unitModel.fmt (.Object [([34], .Null)])
        = 123 :: escape [34] ++ [58] ++ stringify unitModel.fmt .Null ++ [125]) := by
  intro h
  rw [show stringify unitModel.fmt (.Object [([34], .Null)])
      = [123, 34, 34, 34, 58, 110, 117, 108, 108, 125] by
    simp [stringify_Object, joinSep, stringify, strB]] at h
  rw [show stringify unitModel.fmt .Null = [110, 117, 108, 108] by simp [stringify]; rfl] at h
  rw [show escape [34] = [34, 92, 34, 34] from rfl] at h
  simp at h

/-- C3 amended: stringify emits object keys verbatim between double quotes
with no escaping at all; the output agrees with the claimed string-escaped
form exactly on keys every byte of which the escape function leaves
unchanged. -/
theorem C3_keys_verbatim (M : FModel) :
    (∀ kvs : List (List Nat × Json M.F),
      stringify M.fmt (.Object kvs)
        = 123 :: joinSep [44]
            (kvs.map fun kv => 34 :: kv.1 ++ [34, 58] ++ stringify M.fmt kv.2) ++ [125])
  ∧ (∀ kvs : List (List Nat × Json M.F), (∀ kv ∈ kvs, clean_bytes kv.1 = true) →
      stringify M.fmt (.Object kvs)
        = 123 :: joinSep [44]
            (kvs.map fun kv => escape kv.1 ++ 58 :: stringify M.fmt kv.2) ++ [125]) := by
  constructor
  · intro kvs
    exact stringify_Object M.fmt kvs
  · intro kvs h
    rw [stringify_Object]
    have hmap : (kvs.map fun kv => 34 :: kv.1 ++ [34, 58] ++ stringify M.fmt kv.2)
        = kvs.map fun kv => escape kv.1 ++ 58 :: stringify M.fmt kv.2 := by
      apply List.map_congr_left
      intro kv hkv
      rw [escape_clean kv.1 (h kv hkv)]
      simp
    rw [hmap]

/-- Witness for C3 amended at a concrete object with a clean one-byte key. -/
theorem C3_keys_verbatim_witness :
    stringify unitModel.fmt (.Object [([107], .Null)])
      = 123 :: joinSep [44]
          ([([107], (.Null : Json unitModel.F))].map
            fun kv => escape kv.1 ++ 58 :: stringify unitModel.fmt kv.2) ++ [125] :=
  (C3_keys_verbatim unitModel).2 [([107], .Null)] (by
    intro kv hkv
    simp at hkv
    rw [hkv]
    decide)

/-- Counterexample to C1 as stated: the one-character string holding a double
quote is free of control characters, yet parsing its serialization fails,
because the serialized escape is mis-parsed and leaves trailing input. -/
theorem C1_counterexample :
    ctrl_free (.String [34] : Json unitModel.F) = true
  ∧ ¬ (parse_with_trailing_whitespace unitModel (stringify unitModel.fmt (.String [34]))
        = .ok (.String [34])) := by
  constructor
  · rw [ctrl_free_String]
    decide
  · intro h
    rw [show stringify unitModel.fmt (.String [34]) = [34, 92, 34, 34] by
      simp [stringify, escape, escapeByte]] at h
    rw [show parse_with_trailing_whitespace unitModel [34, 92, 34, 34]
        = .error ⟨"not end with trailing whitespace"⟩ from rfl] at h
    exact Except.noConfusion h

/-- C1 amended: for every number model whose formatted tokens parse back and
stay in the number character class with a digit or minus head, and every Json
value all of whose strings and object keys avoid the double quote, the
backslash and control bytes, parsing the canonical serialization succeeds and
returns the same value. -/
theorem C1_round_trip_clean (M : FModel) (hM : num_model_ok M) (v : Json M.F)
    (hv : clean v = true) :
    parse_with_trailing_whitespace M (stringify M.fmt v) = .ok v :=
  stringify_round_trip M hM v hv

/-- Witness for C1 amended: a nested value with every variant, over the unit
number model. -/
theorem C1_round_trip_clean_witness :
    num_model_ok unitModel
    ∧ clean (.Array [.Null, .Bool true, .Number (), .String [97, 98],
        .Object [([107], .Null)]] : Json unitModel.F) = true
    ∧ parse_with_trailing_whitespace unitModel
        (stringify unitModel.fmt (.Array [.Null, .Bool true, .Number (), .String [97, 98],
          .Object [([107], .Null)]]))
      = .ok (.Array [.Null, .Bool true, .Number (), .String [97, 98],
          .Object [([107], .Null)]]) := by
  have h1 : num_model_ok unitModel := by
    intro x
    exact ⟨rfl, rfl, 48, [], rfl, by omega⟩
  have h2 : clean (.Array [.Null, .Bool true, .Number (), .String [97, 98],
      .Object [([107], .Null)]] : Json unitModel.F) = true := by
    rw [clean_Array]
    simp [clean, clean_Object, clean_bytes]
  exact ⟨h1, h2, C1_round_trip_clean unitModel h1 _ h2⟩
